import Mathlib

/-!
# Verification of the Livemark Markdown ⇄ rich-document conversion pipeline

This file gives a shallow embedding, in Lean 4, of the serialization core of
the Livemark editor:

* `remarkPlantuml.ts` — the PlantUML diagram-fence preprocessor/postprocessor
  (`preprocessPlantuml`, `postprocessPlantuml`);
* `mdastToTiptap.ts` — the AST → RDM (TipTap) converter, including
  `resolveImageUrl` and the paragraph image extraction;
* `tiptapToMdast.ts` — the RDM → AST converter, including
  `unresolveImageUrl` and `wrapInMark`.

JavaScript strings are modelled as lists of characters (`Str`); JavaScript
objects with optional fields are modelled as Lean structures/inductives whose
fields are `Option`-typed.  Fields that the source only ever reads through the
nullish-coalescing operator `??` (which identifies `null` and `undefined`) are
collapsed to a single `Option`; the `checked` field of AST list items, whose
`null`/`undefined` distinction the source *does* inspect, is modelled with a
nested `Option (Option Bool)`.

The theorems at the end of the file settle the specified properties of the
pipeline against these definitions.
-/

namespace Livemark

/-- JavaScript strings, modelled as lists of (UTF-16-ish) characters. -/
abbrev Str := List Char

/-- Embed a Lean string literal as a `Str`. -/
def str (s : String) : Str := s.data

/-- JS `String.prototype.startsWith`. -/
def jsStartsWith (s p : Str) : Bool := p.isPrefixOf s

/-- JS `String.prototype.includes` (substring test). -/
def jsIncludes (s sub : Str) : Bool := s.tails.any (fun t => sub.isPrefixOf t)

/-- The whitespace characters recognised by the JS `trimStart` / `\s` model. -/
def isWs (c : Char) : Bool := c = ' ' ∨ c = '\t' ∨ c = '\n' ∨ c = '\r'

/-- JS `String.prototype.trimStart`. -/
def jsTrimStart (s : Str) : Str := s.dropWhile isWs

/-- JS `baseUri.replace(/\/$/, "")`: drop a single trailing slash. -/
def trimTrailingSlash (b : Str) : Str :=
  if b.getLast? = some '/' then b.dropLast else b

/-- JS `s.split(sep)` for a single-character separator (always returns at
least one piece). -/
def splitOnC (sep : Char) : Str → List Str
  | [] => [[]]
  | c :: rest =>
    if c = sep then [] :: splitOnC sep rest
    else
      match splitOnC sep rest with
      | [] => [[c]]
      | h :: t => (c :: h) :: t

/-- JS `pieces.join(sep)` for a single-character separator. -/
def joinC (sep : Char) : List Str → Str
  | [] => []
  | [l] => l
  | l :: rest => l ++ sep :: joinC sep rest

/-- JS `s.split("\n")`. -/
def splitNl : Str → List Str := splitOnC '\n'

/-- JS `lines.join("\n")`. -/
def joinNl : List Str → Str := joinC '\n'

theorem splitOnC_ne_nil (sep : Char) (s : Str) : splitOnC sep s ≠ [] := by
  induction s with
  | nil => simp [splitOnC]
  | cons c rest ih =>
    simp only [splitOnC]
    split
    · simp
    · cases h : splitOnC sep rest <;> simp

theorem joinC_cons_cons (sep : Char) (l h : Str) (t : List Str) :
    joinC sep (l :: h :: t) = l ++ sep :: joinC sep (h :: t) := rfl

theorem joinC_splitOnC (sep : Char) (s : Str) : joinC sep (splitOnC sep s) = s := by
  induction s with
  | nil => rfl
  | cons c rest ih =>
    simp only [splitOnC]
    split
    · rename_i hc
      cases h : splitOnC sep rest with
      | nil => exact absurd h (splitOnC_ne_nil sep rest)
      | cons h' t' =>
        rw [h] at ih
        rw [joinC_cons_cons, ih, hc]
        rfl
    · cases h : splitOnC sep rest with
      | nil => exact absurd h (splitOnC_ne_nil sep rest)
      | cons h' t' =>
        rw [h] at ih
        cases t' with
        | nil => simpa [joinC] using congrArg (c :: ·) ih
        | cons t₁ t₂ =>
          rw [joinC_cons_cons] at ih ⊢
          simpa using congrArg (c :: ·) ih

theorem joinNl_splitNl (s : Str) : joinNl (splitNl s) = s := joinC_splitOnC '\n' s

/-!
## `remarkPlantuml.ts` — the diagram fence preprocessor / postprocessor

The source scans the lines of the input with a `while` loop, tracking an
`insideFence` flag and, on a `@startuml` marker, an inner capture loop that
collects lines up to the `@enduml` marker.  We embed the scan as a structurally
recursive state machine over the list of lines: `PreScan.normal inside`
corresponds to the outer loop with its `insideFence` flag, and
`PreScan.capturing acc` corresponds to being inside the capture loop with the
lines captured so far (the `blockLines` array) in `acc`.
-/

/-- Embeds `/^(`{3,}|~{3,})/.test(trimmed)`: the (already trimmed) line opens a fence. -/
def isFenceOpen (t : Str) : Bool :=
  jsStartsWith t (str "```") ∨ jsStartsWith t (str "~~~")

/-- Embeds `/^(`{3,}|~{3,})\s*$/.test(trimmed)`: three-plus fence characters followed
only by whitespace.  (Backtracking over the `{3,}` repetition cannot help the
regex: any shorter run leaves a non-whitespace fence character in the tail, so
taking the maximal run is equivalent.) -/
def isFenceClose (t : Str) : Bool :=
  (let run := t.takeWhile (· = '`')
   run.length ≥ 3 ∧ (t.drop run.length).all isWs) ∨
  (let run := t.takeWhile (· = '~')
   run.length ≥ 3 ∧ (t.drop run.length).all isWs)

/-- Embeds `/^```plantuml\s+originalFormat:startuml\s*$/.test(trimmed)`. -/
def isMetaLine (t : Str) : Bool :=
  jsStartsWith t (str "```plantuml") ∧
  (let rest := t.drop (str "```plantuml").length
   let ws := rest.takeWhile isWs
   ws ≠ [] ∧
   jsStartsWith (rest.drop ws.length) (str "originalFormat:startuml") ∧
   ((rest.drop ws.length).drop (str "originalFormat:startuml").length).all isWs)

/-- The opening fence line `preprocessPlantuml` emits for a captured block. -/
def plantumlFenceLine : Str := str "```plantuml originalFormat:startuml"

/-- State of the `preprocessPlantuml` line scan (see module comment above). -/
inductive PreScan where
  | normal (insideFence : Bool)
  | capturing (blockLines : List Str)
deriving DecidableEq

/-- The line scan of `preprocessPlantuml` (remarkPlantuml.ts lines 24–78).
`normal` mirrors the outer `while` loop, `capturing acc` the inner capture
loop with `acc` the `blockLines` collected so far (the `@startuml` line
included).  A capture that reaches the end of input without `@enduml` emits
its lines unchanged, exactly as the `foundEnd` fallback in the source. -/
def preGo : List Str → PreScan → List Str
  | [], .normal _ => []
  | [], .capturing acc => acc
  | l :: rest, .normal inside =>
    let t := jsTrimStart l
    if ¬inside ∧ isFenceOpen t then l :: preGo rest (.normal true)
    else if inside ∧ isFenceClose t then l :: preGo rest (.normal false)
    else if ¬inside ∧ jsStartsWith t (str "@startuml") then
      preGo rest (.capturing [l])
    else l :: preGo rest (.normal inside)
  | l :: rest, .capturing acc =>
    if jsStartsWith (jsTrimStart l) (str "@enduml") then
      plantumlFenceLine :: ((acc ++ [l]) ++ str "```" :: preGo rest (.normal false))
    else preGo rest (.capturing (acc ++ [l]))

/-- Embeds `preprocessPlantuml` (remarkPlantuml.ts, lines 24–78). -/
def preprocessPlantuml (markdown : Str) : Str :=
  joinNl (preGo (splitNl markdown) (.normal false))

/-- State of the `postprocessPlantuml` line scan: `normal` is the outer loop;
`collecting acc` is the inner loop that gathers a recognised plantuml block's
content lines until the closing fence. -/
inductive PostScan where
  | normal
  | collecting (blockLines : List Str)
deriving DecidableEq

/-- The line scan of `postprocessPlantuml` (remarkPlantuml.ts lines 85–115).
On a `` ```plantuml originalFormat:startuml `` fence line the scanner collects
the block's lines, drops both fence delimiters, and emits only the content;
all other lines pass through. -/
def postGo : List Str → PostScan → List Str
  | [], .normal => []
  | [], .collecting acc => acc
  | l :: rest, .normal =>
    if isMetaLine (jsTrimStart l) then postGo rest (.collecting [])
    else l :: postGo rest .normal
  | l :: rest, .collecting acc =>
    if jsTrimStart l = str "```" then acc ++ postGo rest .normal
    else postGo rest (.collecting (acc ++ [l]))

/-- Embeds `postprocessPlantuml` (remarkPlantuml.ts, lines 85–115). -/
def postprocessPlantuml (markdown : Str) : Str :=
  joinNl (postGo (splitNl markdown) .normal)

/-!
## Data model

`Md` embeds the `MdastNode` interface shared by `mdastToTiptap.ts` and
`tiptapToMdast.ts`; `Tip` embeds TipTap's `JSONContent` restricted to the
attribute keys this code base reads or writes.  Optional/nullable fields are
`Option`-typed; `Md.checked` keeps the `undefined` / `null` / boolean
tri-state as `Option (Option Bool)` because `mdastToTiptap.ts` distinguishes
`checked !== null && checked !== undefined`.  Fields only ever accessed via
`??` (for which JS identifies `null` and `undefined`) are a single `Option`. -/

/-- The `MdastNode` interface (fields as in the TS sources). -/
inductive Md where
  | mk (ty : Str) (children : Option (List Md)) (value : Option Str)
      (depth : Option Nat) (ordered : Option Bool) (checked : Option (Option Bool))
      (url : Option Str) (alt : Option Str) (title : Option Str)
      (lang : Option Str) (meta : Option Str) (spread : Option Bool)

mutual

/-- Structural equality test for `Md` (deriving is unavailable for nested
inductives in this Lean version, so the instance is written by hand). -/
def Md.beq : Md → Md → Bool
  | .mk t1 c1 v1 d1 o1 ch1 u1 a1 ti1 l1 m1 s1,
    .mk t2 c2 v2 d2 o2 ch2 u2 a2 ti2 l2 m2 s2 =>
    t1 = t2 ∧ Md.beqOptList c1 c2 ∧ v1 = v2 ∧ d1 = d2 ∧ o1 = o2 ∧ ch1 = ch2 ∧
      u1 = u2 ∧ a1 = a2 ∧ ti1 = ti2 ∧ l1 = l2 ∧ m1 = m2 ∧ s1 = s2

def Md.beqOptList : Option (List Md) → Option (List Md) → Bool
  | none, none => true
  | some a, some b => Md.beqList a b
  | _, _ => false

def Md.beqList : List Md → List Md → Bool
  | [], [] => true
  | a :: as, b :: bs => Md.beq a b ∧ Md.beqList as bs
  | _, _ => false

end

mutual

theorem Md.beq_iff : ∀ a b : Md, Md.beq a b = true ↔ a = b
  | .mk t1 c1 v1 d1 o1 ch1 u1 a1 ti1 l1 m1 s1,
    .mk t2 c2 v2 d2 o2 ch2 u2 a2 ti2 l2 m2 s2 => by
    simp only [Md.beq, Bool.decide_and, Bool.and_eq_true, decide_eq_true_eq,
      Md.mk.injEq, Md.beqOptList_iff c1 c2]

theorem Md.beqOptList_iff : ∀ a b : Option (List Md), Md.beqOptList a b = true ↔ a = b
  | none, none => by simp [Md.beqOptList]
  | none, some _ => by simp [Md.beqOptList]
  | some _, none => by simp [Md.beqOptList]
  | some a, some b => by simp [Md.beqOptList, Md.beqList_iff a b]

theorem Md.beqList_iff : ∀ a b : List Md, Md.beqList a b = true ↔ a = b
  | [], [] => by simp [Md.beqList]
  | [], _ :: _ => by simp [Md.beqList]
  | _ :: _, [] => by simp [Md.beqList]
  | a :: as, b :: bs => by
    simp [Md.beqList, Md.beq_iff a b, Md.beqList_iff as bs]

end

instance : DecidableEq Md := fun a b =>
  decidable_of_iff (Md.beq a b = true) (Md.beq_iff a b)

def Md.ty : Md → Str | .mk t _ _ _ _ _ _ _ _ _ _ _ => t
def Md.children : Md → Option (List Md) | .mk _ c _ _ _ _ _ _ _ _ _ _ => c
def Md.value : Md → Option Str | .mk _ _ v _ _ _ _ _ _ _ _ _ => v
def Md.depth : Md → Option Nat | .mk _ _ _ d _ _ _ _ _ _ _ _ => d
def Md.ordered : Md → Option Bool | .mk _ _ _ _ o _ _ _ _ _ _ _ => o
def Md.checked : Md → Option (Option Bool) | .mk _ _ _ _ _ c _ _ _ _ _ _ => c
def Md.url : Md → Option Str | .mk _ _ _ _ _ _ u _ _ _ _ _ => u
def Md.alt : Md → Option Str | .mk _ _ _ _ _ _ _ a _ _ _ _ => a
def Md.title : Md → Option Str | .mk _ _ _ _ _ _ _ _ t _ _ _ => t
def Md.lang : Md → Option Str | .mk _ _ _ _ _ _ _ _ _ l _ _ => l
def Md.meta : Md → Option Str | .mk _ _ _ _ _ _ _ _ _ _ m _ => m
def Md.spread : Md → Option Bool | .mk _ _ _ _ _ _ _ _ _ _ _ s => s

/-- Build an `Md` node with every optional field absent. -/
def Md.bare (t : Str) : Md := .mk t none none none none none none none none none none none

/-- Named-field builder for `Md` nodes (the inductive's constructor is
positional; this mirrors the object literals of the TS sources, with omitted
keys defaulting to absent). -/
structure MdParts where
  ty : Str
  children : Option (List Md) := none
  value : Option Str := none
  depth : Option Nat := none
  ordered : Option Bool := none
  checked : Option (Option Bool) := none
  url : Option Str := none
  alt : Option Str := none
  title : Option Str := none
  lang : Option Str := none
  meta : Option Str := none
  spread : Option Bool := none

def Md.of (p : MdParts) : Md :=
  .mk p.ty p.children p.value p.depth p.ordered p.checked p.url p.alt p.title
    p.lang p.meta p.spread

/-- Replace the `children` of an `Md` node (models the in-place
`prev.children = [imgNode]` assignment in tiptapToMdast.ts). -/
def Md.withChildren : Md → List Md → Md
  | .mk t _ v d o chk u a ti l m s, c => .mk t (some c) v d o chk u a ti l m s

/-- The attribute record of a TipTap node (`node.attrs`), restricted to the
keys this code base uses. -/
structure Attrs where
  level : Option Nat := none
  language : Option Str := none
  source : Option Str := none
  viewMode : Option Str := none
  originalFormat : Option Str := none
  checked : Option Bool := none
  src : Option Str := none
  originalSrc : Option Str := none
  alt : Option Str := none
  title : Option Str := none
deriving DecidableEq

/-- A TipTap mark (`{type, attrs?}`); the only mark attributes the sources
read or write are the link attributes, inlined here. -/
structure Mark where
  ty : Str
  href : Option Str := none
  target : Option Str := none
  title : Option Str := none
deriving DecidableEq

/-- TipTap's `JSONContent` restricted to the fields this code base uses. -/
inductive Tip where
  | mk (ty : Str) (attrs : Option Attrs) (content : Option (List Tip))
      (marks : Option (List Mark)) (text : Option Str)

mutual

/-- Structural equality test for `Tip` (hand-written, as for `Md`). -/
def Tip.beq : Tip → Tip → Bool
  | .mk t1 a1 c1 m1 x1, .mk t2 a2 c2 m2 x2 =>
    t1 = t2 ∧ a1 = a2 ∧ Tip.beqOptList c1 c2 ∧ m1 = m2 ∧ x1 = x2

def Tip.beqOptList : Option (List Tip) → Option (List Tip) → Bool
  | none, none => true
  | some a, some b => Tip.beqList a b
  | _, _ => false

def Tip.beqList : List Tip → List Tip → Bool
  | [], [] => true
  | a :: as, b :: bs => Tip.beq a b ∧ Tip.beqList as bs
  | _, _ => false

end

mutual

theorem Tip.tipBeq_iff : ∀ a b : Tip, Tip.beq a b = true ↔ a = b
  | .mk t1 a1 c1 m1 x1, .mk t2 a2 c2 m2 x2 => by
    simp only [Tip.beq, Bool.decide_and, Bool.and_eq_true, decide_eq_true_eq,
      Tip.mk.injEq, Tip.tipBeqOptList_iff c1 c2]

theorem Tip.tipBeqOptList_iff : ∀ a b : Option (List Tip), Tip.beqOptList a b = true ↔ a = b
  | none, none => by simp [Tip.beqOptList]
  | none, some _ => by simp [Tip.beqOptList]
  | some _, none => by simp [Tip.beqOptList]
  | some a, some b => by simp [Tip.beqOptList, Tip.tipBeqList_iff a b]

theorem Tip.tipBeqList_iff : ∀ a b : List Tip, Tip.beqList a b = true ↔ a = b
  | [], [] => by simp [Tip.beqList]
  | [], _ :: _ => by simp [Tip.beqList]
  | _ :: _, [] => by simp [Tip.beqList]
  | a :: as, b :: bs => by
    simp [Tip.beqList, Tip.tipBeq_iff a b, Tip.tipBeqList_iff as bs]

end

instance : DecidableEq Tip := fun a b =>
  decidable_of_iff (Tip.beq a b = true) (Tip.tipBeq_iff a b)

def Tip.ty : Tip → Str | .mk t _ _ _ _ => t
def Tip.attrs : Tip → Option Attrs | .mk _ a _ _ _ => a
def Tip.content : Tip → Option (List Tip) | .mk _ _ c _ _ => c
def Tip.marks : Tip → Option (List Mark) | .mk _ _ _ m _ => m
def Tip.text : Tip → Option Str | .mk _ _ _ _ t => t

/-- Embeds `{ type: "paragraph" }` — the synthesized empty paragraph. -/
def Tip.paragraphEmpty : Tip := .mk (str "paragraph") none none none none

/-- JS truthiness of an optional string (`undefined`, `null` and `""` are
falsy). -/
def strTruthy : Option Str → Bool
  | none => false
  | some s => s ≠ []

/-- JS `String.prototype.trim` (both ends). -/
def jsTrim (s : Str) : Str := ((s.dropWhile isWs).reverse.dropWhile isWs).reverse

/-- Build a `Tip` node with every optional field absent. -/
def Tip.bare (t : Str) : Tip := .mk t none none none none

/-- Embeds `{ type: "text", text: v }`. -/
def Tip.textPlain (v : Str) : Tip := .mk (str "text") none none none (some v)

/-!
## `mdastToTiptap.ts` — AST → RDM (forward) converter
-/

namespace MdastToTiptap

/-- Embeds `resolveImageUrl` (mdastToTiptap.ts lines 21–32). -/
def resolveImageUrl (src : Str) (baseUri : Option Str) : Str :=
  if baseUri = none ∨ baseUri = some [] ∨ src = [] then src
  else if jsStartsWith src (str "http://") ∨ jsStartsWith src (str "https://") ∨
      jsStartsWith src (str "data:") ∨ jsStartsWith src (str "vscode-webview:") then
    src
  else trimTrailingSlash (baseUri.getD []) ++ '/' :: src

/-- Return type of `convertNode`: `JSONContent | JSONContent[] | null` is
modelled as `Option ConvRes`. -/
inductive ConvRes where
  | one (t : Tip)
  | many (ts : List Tip)
deriving DecidableEq

/-- How `convertChildren`/`convertListItemContent` splice a `convertNode`
result into their result array (`null` skipped, arrays spread). -/
def ConvRes.flatten : Option ConvRes → List Tip
  | none => []
  | some (.one t) => [t]
  | some (.many ts) => ts

/-- The text run emitted by `convertInlineNode`: the `marks` key is present
only when the mark list is non-empty (`...(marks.length > 0 ? ... : {})`). -/
def textRun (v : Str) (marks : List Mark) : Tip :=
  .mk (str "text") none none (if marks = [] then none else some marks) (some v)

mutual

/-- Embeds `convertInlineNode` (mdastToTiptap.ts lines 330–421). -/
def convertInlineNode : Md → List Mark → Option Str → List Tip
  | .mk t ch v _ _ _ u a ti _ _ _, marks, b =>
    if t = str "text" then
      if strTruthy v then [textRun (v.getD []) marks] else []
    else if t = str "strong" then
      flatMapInlineO ch (marks ++ [Mark.mk (str "bold") none none none]) b
    else if t = str "emphasis" then
      flatMapInlineO ch (marks ++ [Mark.mk (str "italic") none none none]) b
    else if t = str "delete" then
      flatMapInlineO ch (marks ++ [Mark.mk (str "strike") none none none]) b
    else if t = str "inlineCode" then
      if strTruthy v then
        [Tip.mk (str "text") none none
          (some (marks ++ [Mark.mk (str "code") none none none])) (some (v.getD []))]
      else []
    else if t = str "link" then
      flatMapInlineO ch
        (marks ++ [Mark.mk (str "link") (some (u.getD [])) (some (str "_blank")) ti]) b
    else if t = str "image" then
      [textRun (if strTruthy a then a.getD [] else str "image") marks]
    else if t = str "break" then []
    else if strTruthy v then [textRun (v.getD []) marks] else []

/-- Embeds `node.children ?? []` fed to `flatMapInline`. -/
def flatMapInlineO : Option (List Md) → List Mark → Option Str → List Tip
  | none, _, _ => []
  | some l, marks, b => flatMapInline l marks b

/-- Embeds `flatMapInline` (mdastToTiptap.ts lines 423–433). -/
def flatMapInline : List Md → List Mark → Option Str → List Tip
  | [], _, _ => []
  | n :: rest, marks, b => convertInlineNode n marks b ++ flatMapInline rest marks b

end

/-- Embeds `convertInlineChildren` (mdastToTiptap.ts lines 318–328). -/
def convertInlineChildren : List Md → Option Str → List Tip
  | [], _ => []
  | n :: rest, b => convertInlineNode n [] b ++ convertInlineChildren rest b

/-- The filter predicate of `flushInlineBuffer`:
`n.type !== "text" || (n.value && n.value.trim() !== "")`. -/
def keptInFlush (n : Md) : Bool :=
  n.ty ≠ str "text" ∨ (strTruthy n.value ∧ jsTrim (n.value.getD []) ≠ [])

/-- Embeds `flushInlineBuffer` (mdastToTiptap.ts lines 91–102): a paragraph is
emitted from the whole buffer when the buffer filtered down to substantive
nodes is non-empty. -/
def flushInlineBuffer (buf : List Md) (b : Option Str) : List Tip :=
  if buf.filter keptInFlush ≠ [] then
    [Tip.mk (str "paragraph") none (some (convertInlineChildren buf b)) none none]
  else []

/-- The block image node built for an extracted AST image
(mdastToTiptap.ts lines 107–116 and 193–204). -/
def imageBlockOf (u a ti : Option Str) (b : Option Str) : Tip :=
  .mk (str "image")
    (some { src := some (resolveImageUrl (u.getD []) b),
            originalSrc := some (u.getD []), alt := a, title := ti })
    none none none

/-- The image-extraction loop of the paragraph case
(mdastToTiptap.ts lines 104–121): first argument the children still to
process, second the `inlineBuffer`. -/
def paraStep : List Md → List Md → Option Str → List Tip
  | [], buf, b => flushInlineBuffer buf b
  | c :: rest, buf, b =>
    if c.ty = str "image" then
      flushInlineBuffer buf b ++ imageBlockOf c.url c.alt c.title b :: paraStep rest [] b
    else paraStep rest (buf ++ [c]) b

/-- The row loop of the table case (mdastToTiptap.ts lines 219–235); the
`Nat` argument is `rowIndex`. -/
def tableRowsGo : List Md → Nat → Option Str → List Tip
  | [], _, _ => []
  | row :: rest, i, b =>
    Tip.mk (str "tableRow") none
      (some ((row.children.getD []).map (fun cell =>
        Tip.mk (if i = 0 then str "tableHeader" else str "tableCell") none
          (some [Tip.mk (str "paragraph") none
            (some (convertInlineChildren (cell.children.getD []) b)) none none])
          none none)))
      none none
    :: tableRowsGo rest (i + 1) b

/-- Embeds `convertInlineChildren` applied to `node.children ?? []`. -/
def convertInlineChildrenO (o : Option (List Md)) (b : Option Str) : List Tip :=
  convertInlineChildren (o.getD []) b

/-- The two trailing fix-ups of `convertListItemContent`
(mdastToTiptap.ts lines 297–309): an empty result becomes a single empty
paragraph, and a non-paragraph first element gets an empty paragraph
prepended. -/
def liFix : List Tip → List Tip
  | [] => [Tip.paragraphEmpty]
  | t :: ts => if t.ty ≠ str "paragraph" then Tip.paragraphEmpty :: t :: ts else t :: ts

mutual

/-- Embeds `convertNode` (mdastToTiptap.ts lines 63–243). -/
def convertNode : Md → Option Str → Option ConvRes
  | .mk t ch v d o _ u a ti l m _, b =>
    if t = str "heading" then
      some (.one (Tip.mk (str "heading") (some { level := some (d.getD 1) })
        (some (convertInlineChildrenO ch b)) none none))
    else if t = str "paragraph" then
      let children := ch.getD []
      if ¬children.any (fun c => c.ty = str "image") then
        some (.one (Tip.mk (str "paragraph") none
          (some (convertInlineChildrenO ch b)) none none))
      else
        match paraStep children [] b with
        | [r] => some (.one r)
        | r => some (.many r)
    else if t = str "blockquote" then
      some (.one (Tip.mk (str "blockquote") none (some (convertChildrenO ch b)) none none))
    else if t = str "code" then
      if l = some (str "plantuml") then
        some (.one (Tip.mk (str "plantumlBlock")
          (some { language := some (str "plantuml"), source := some (v.getD []),
                  viewMode := some (str "rendered"),
                  originalFormat := some
                    (if jsIncludes (m.getD []) (str "originalFormat:startuml")
                     then str "startuml" else str "fenced") })
          none none none))
      else
        some (.one (Tip.mk (str "codeBlock") (some { language := l })
          (some (if strTruthy v then [Tip.textPlain (v.getD [])] else [])) none none))
    else if t = str "list" then
      if o = some true then
        some (.one (Tip.mk (str "orderedList") none
          (some (convertListItemsO ch false b)) none none))
      else if (ch.getD []).any (fun c =>
          decide (c.ty = str "listItem") && match c.checked with
            | some (some _) => true | _ => false) then
        some (.one (Tip.mk (str "taskList") none
          (some (convertListItemsO ch true b)) none none))
      else
        some (.one (Tip.mk (str "bulletList") none
          (some (convertListItemsO ch false b)) none none))
    else if t = str "listItem" then
      some (.one (Tip.mk (str "listItem") none
        (some (liFix (liLoopO ch b))) none none))
    else if t = str "thematicBreak" then
      some (.one (Tip.bare (str "horizontalRule")))
    else if t = str "image" then
      some (.one (imageBlockOf u a ti b))
    else if t = str "html" then
      some (.one (Tip.mk (str "paragraph") none
        (some (if strTruthy v then [Tip.textPlain (v.getD [])] else [])) none none))
    else if t = str "yaml" then
      some (.one (Tip.mk (str "codeBlock")
        (some { language := some (str "yaml-frontmatter") })
        (some (if strTruthy v then [Tip.textPlain (v.getD [])] else [])) none none))
    else if t = str "table" then
      some (.one (Tip.mk (str "table") none (some (tableRowsGo (ch.getD []) 0 b)) none none))
    else if t = str "break" then
      some (.one (Tip.bare (str "hardBreak")))
    else none

/-- Embeds `node.children ?? []` fed to `convertChildren`. -/
def convertChildrenO : Option (List Md) → Option Str → List Tip
  | none, _ => []
  | some l, b => convertChildren l b

/-- Embeds `convertChildren` (mdastToTiptap.ts lines 45–61). -/
def convertChildren : List Md → Option Str → List Tip
  | [], _ => []
  | n :: rest, b => ConvRes.flatten (convertNode n b) ++ convertChildren rest b

/-- Embeds `node.children ?? []` fed to `convertListItems`. -/
def convertListItemsO : Option (List Md) → Bool → Option Str → List Tip
  | none, _, _ => []
  | some l, isTask, b => convertListItems l isTask b

/-- Embeds `convertListItems` (mdastToTiptap.ts lines 245–263). -/
def convertListItems : List Md → Bool → Option Str → List Tip
  | [], _, _ => []
  | .mk _ ch _ _ _ chk _ _ _ _ _ _ :: rest, isTask, b =>
    (if isTask then
      Tip.mk (str "taskItem") (some { checked := some (chk = some (some true)) })
        (some (liFix (liLoopO ch b))) none none
    else
      Tip.mk (str "listItem") none (some (liFix (liLoopO ch b))) none none)
    :: convertListItems rest isTask b

/-- Embeds `children ?? []` fed to the `convertListItemContent` loop. -/
def liLoopO : Option (List Md) → Option Str → List Tip
  | none, _ => []
  | some l, b => liLoop l b

/-- The accumulation loop of `convertListItemContent`
(mdastToTiptap.ts lines 269–295): paragraphs and generic children are
spliced (arrays spread), while a nested `list` child is pushed only when the
conversion returned a single node. -/
def liLoop : List Md → Option Str → List Tip
  | [], _ => []
  | c :: rest, b =>
    (if c.ty = str "paragraph" then ConvRes.flatten (convertNode c b)
     else if c.ty = str "list" then
       match convertNode c b with
       | some (.one t) => [t]
       | _ => []
     else ConvRes.flatten (convertNode c b)) ++ liLoop rest b

end

/-- Embeds `convertListItemContent` (mdastToTiptap.ts lines 265–310): the loop
followed by the empty-content and leading-paragraph fix-ups. -/
def convertListItemContent (children : List Md) (b : Option Str) : List Tip :=
  liFix (liLoop children b)

/-- Embeds `mdastToTiptap` (mdastToTiptap.ts lines 34–43). -/
def mdastToTiptap (root : Md) (b : Option Str) : Tip :=
  let content := convertChildrenO root.children b
  Tip.mk (str "doc") none
    (some (if content.length > 0 then content else [Tip.paragraphEmpty])) none none

end MdastToTiptap

/-!
## `tiptapToMdast.ts` — RDM → AST (reverse) converter
-/

namespace TiptapToMdast

/-- Split a string at the first occurrence of a substring, returning the part
before it and the part after it. -/
def breakOnSub : Str → Str → Option (Str × Str)
  | s, sub =>
    if sub.isPrefixOf s then some ([], s.drop sub.length)
    else
      match s with
      | [] => none
      | c :: rest =>
        match breakOnSub rest sub with
        | some (pre, post) => some (c :: pre, post)
        | none => none

def hexVal (c : Char) : Option Nat :=
  if '0' ≤ c ∧ c ≤ '9' then some (c.toNat - '0'.toNat)
  else if 'a' ≤ c ∧ c ≤ 'f' then some (c.toNat - 'a'.toNat + 10)
  else if 'A' ≤ c ∧ c ≤ 'F' then some (c.toNat - 'A'.toNat + 10)
  else none

/-- Model of the host's `decodeURIComponent` for ASCII percent-escapes:
`%hh` with `hh < 0x80` decodes to the corresponding character, a malformed or
non-ASCII escape is a decoding error (`none`, modelling the thrown
`URIError`; the host also decodes well-formed multi-byte UTF-8 escapes, which
this model conservatively treats as errors — the branch using it is only
reachable for `vscode-resource`/`vscode-webview` URLs and is exercised by no
theorem below). -/
def decodePercent : Str → Option Str
  | [] => some []
  | '%' :: h1 :: h2 :: rest => do
    let v1 ← hexVal h1
    let v2 ← hexVal h2
    let n := 16 * v1 + v2
    if n < 128 then
      let r ← decodePercent rest
      some (Char.ofNat n :: r)
    else none
  | '%' :: _ => none
  | c :: rest => do
    let r ← decodePercent rest
    some (c :: r)

/-- Model of the host's `new URL(s).pathname` for `scheme://authority/path`
URLs: `none` models the constructor throwing (no `://`, or an invalid
scheme).  For non-special schemes such as `vscode-webview:` the pathname is
everything from the first `/` after the authority up to a `?` or `#`. -/
def urlPathname (s : Str) : Option Str := do
  let (scheme, rest) ← breakOnSub s (str "://")
  if decide (scheme ≠ []) && scheme.head?.elim false Char.isAlpha &&
      scheme.all (fun c => c.isAlphanum || c == '+' || c == '-' || c == '.') then
    let afterAuth := rest.dropWhile (fun c => decide (c ≠ '/' ∧ c ≠ '?' ∧ c ≠ '#'))
    match afterAuth with
    | '/' :: _ => some (afterAuth.takeWhile (fun c => decide (c ≠ '?' ∧ c ≠ '#')))
    | _ => some []
  else none

/-- Embeds `parts.findIndex((p, i) => i > 0 && !p.includes(":") && p !== "" &&
parts[i-1] !== "")` (tiptapToMdast.ts lines 56–58); `none` models `-1`. -/
def findRelativeStart (parts : List Str) : Option Nat :=
  (List.range parts.length).find? (fun i =>
    decide (i > 0) && !(jsIncludes (parts.getD i []) (str ":")) &&
      decide (parts.getD i [] ≠ []) && decide (parts.getD (i - 1) [] ≠ []))

/-- Embeds `pathname.match(/^\/[a-zA-Z]:/)` → `pathname.slice(1)`
(tiptapToMdast.ts lines 67–70). -/
def winFix : Str → Str
  | '/' :: c :: ':' :: rest => if c.isAlpha then c :: ':' :: rest else '/' :: c :: ':' :: rest
  | p => p

/-- The `try` block of `unresolveImageUrl` for `vscode-resource` /
`vscode-webview` URLs (tiptapToMdast.ts lines 37–74); `none` models a thrown
exception (which the source catches, falling through to simple prefix
matching).  `baseUri` is never empty here (the function returns early
otherwise) but the source's `if (baseUri)` guard is kept. -/
def vscodeBranch (src baseUri : Str) : Option Str := do
  let rawPath ← urlPathname src
  let pathname ← decodePercent rawPath
  if baseUri ≠ [] then
    let rawBase ← urlPathname baseUri
    let basePath ← decodePercent rawBase
    if jsStartsWith pathname (basePath ++ ['/']) then
      some (pathname.drop (basePath.length + 1))
    else
      let parts := splitOnC '/' pathname
      match findRelativeStart parts with
      | some rs =>
        let remaining := joinC '/' (parts.drop rs)
        if remaining ≠ [] then some remaining else some (winFix pathname)
      | none => some (winFix pathname)
  else some (winFix pathname)

/-- Embeds `unresolveImageUrl` (tiptapToMdast.ts lines 21–84). -/
def unresolveImageUrl (src : Str) (baseUri : Option Str) : Str :=
  if baseUri = none ∨ baseUri = some [] ∨ src = [] then src
  else if jsStartsWith src (str "http://") ∨ jsStartsWith src (str "https://") ∨
      jsStartsWith src (str "data:") then
    src
  else
    let bu := baseUri.getD []
    let simplePrefix :=
      let pre := trimTrailingSlash bu ++ ['/']
      if jsStartsWith src pre then src.drop pre.length else src
    if jsIncludes src (str "vscode-resource") ∨ jsIncludes src (str "vscode-webview") then
      match vscodeBranch src bu with
      | some r => r
      | none => simplePrefix
    else simplePrefix

/-- Embeds `getTextContent` (tiptapToMdast.ts lines 360–364). -/
def getTextContent (n : Tip) : Str :=
  if strTruthy n.text then n.text.getD []
  else
    match n.content with
    | none => []
    | some cs => (cs.map (fun c => c.text.getD [])).flatten

/-- Embeds `wrapInMark` (tiptapToMdast.ts lines 335–358). -/
def wrapInMark (node : Md) (mark : Mark) : Md :=
  if mark.ty = str "bold" then Md.of { ty := str "strong", children := some [node] }
  else if mark.ty = str "italic" then Md.of { ty := str "emphasis", children := some [node] }
  else if mark.ty = str "strike" then Md.of { ty := str "delete", children := some [node] }
  else if mark.ty = str "code" then
    Md.of { ty := str "inlineCode", value := some (node.value.getD []) }
  else if mark.ty = str "link" then
    Md.of { ty := str "link", url := some (mark.href.getD []), title := mark.title,
            children := some [node] }
  else node

/-- Embeds `convertInlineContent` (tiptapToMdast.ts lines 298–333). -/
def convertInlineContent : List Tip → Option Str → List Md
  | [], _ => []
  | .mk t at_ _ mks tx :: rest, b =>
    if t = str "text" then
      (mks.getD []).foldl wrapInMark (Md.of { ty := str "text", value := some (tx.getD []) })
        :: convertInlineContent rest b
    else if t = str "hardBreak" then
      Md.bare (str "break") :: convertInlineContent rest b
    else if t = str "image" then
      Md.of { ty := str "image",
              url := some (unresolveImageUrl ((at_.bind (·.src)).getD []) b),
              alt := at_.bind (·.alt), title := at_.bind (·.title) }
        :: convertInlineContent rest b
    else convertInlineContent rest b

/-- Embeds `convertInlineContent` applied to `nodes ?? []`. -/
def convertInlineContentO (o : Option (List Tip)) (b : Option Str) : List Md :=
  convertInlineContent (o.getD []) b

/-- The final fallback of `convertListItemContent`
(tiptapToMdast.ts lines 293–295): an empty result becomes a single paragraph
with an empty `children` array. -/
def liFixEmpty (r : List Md) : List Md :=
  if r.isEmpty then [Md.of { ty := str "paragraph", children := some [] }] else r

/-- The table case of `convertNode` (tiptapToMdast.ts lines 214–229): every
cell (first row included) becomes a `tableCell` whose children are the inline
content of the cell's first paragraph. -/
def tableRowsOf (rows : List Tip) (b : Option Str) : List Md :=
  rows.map (fun row =>
    Md.of { ty := str "tableRow",
            children := some ((row.content.getD []).map (fun cell =>
              Md.of { ty := str "tableCell",
                      children := some (convertInlineContent
                        (((cell.content.bind (·.head?)).bind (·.content)).getD []) b) })) })

mutual

/-- Embeds `convertNode` (tiptapToMdast.ts lines 118–234). -/
def convertNode : Tip → Option Str → Option Md
  | .mk t at_ ct mks tx, b =>
    if t = str "heading" then
      some (Md.of { ty := str "heading", depth := some ((at_.bind (·.level)).getD 1),
                    children := some (convertInlineContentO ct b) })
    else if t = str "paragraph" then
      some (Md.of { ty := str "paragraph", children := some (convertInlineContentO ct b) })
    else if t = str "blockquote" then
      some (Md.of { ty := str "blockquote", children := some (convertNodesO ct b) })
    else if t = str "codeBlock" then
      let lang := at_.bind (·.language)
      if lang = some (str "yaml-frontmatter") then
        some (Md.of { ty := str "yaml", value := some (getTextContent (.mk t at_ ct mks tx)) })
      else
        some (Md.of { ty := str "code",
                      lang := match lang with
                        | some s => if s = [] then none else some s
                        | none => none,
                      meta := none,
                      value := some (getTextContent (.mk t at_ ct mks tx)) })
    else if t = str "bulletList" then
      some (Md.of { ty := str "list", ordered := some false, spread := some false,
                    children := some (convertListItemsO ct b) })
    else if t = str "orderedList" then
      some (Md.of { ty := str "list", ordered := some true, spread := some false,
                    children := some (convertListItemsO ct b) })
    else if t = str "taskList" then
      some (Md.of { ty := str "list", ordered := some false, spread := some false,
                    children := some (convertTaskItemsO ct b) })
    else if t = str "listItem" then
      some (Md.of { ty := str "listItem", spread := some false,
                    children := some (liFixEmpty (liGoO ct b)) })
    else if t = str "taskItem" then
      some (Md.of { ty := str "listItem", spread := some false,
                    checked := some (some ((at_.bind (·.checked)).getD false)),
                    children := some (liFixEmpty (liGoO ct b)) })
    else if t = str "horizontalRule" then some (Md.bare (str "thematicBreak"))
    else if t = str "hardBreak" then some (Md.bare (str "break"))
    else if t = str "image" then
      let originalSrc := at_.bind (·.originalSrc)
      let src := (at_.bind (·.src)).getD []
      some (Md.of { ty := str "image",
                    url := some (match originalSrc with
                      | some o => o
                      | none => unresolveImageUrl src b),
                    alt := some ((at_.bind (·.alt)).getD []),
                    title := at_.bind (·.title) })
    else if t = str "table" then
      some (Md.of { ty := str "table", children := some (tableRowsOf (ct.getD []) b) })
    else none

/-- Embeds `doc.content ?? []` fed to `convertNodes`. -/
def convertNodesO : Option (List Tip) → Option Str → List Md
  | none, _ => []
  | some l, b => convertNodes l b

/-- Embeds `convertNodes` (tiptapToMdast.ts lines 96–116): skipped `null`s, and a
block-level `image` result is wrapped in a paragraph. -/
def convertNodes : List Tip → Option Str → List Md
  | [], _ => []
  | n :: rest, b =>
    (match convertNode n b with
     | none => []
     | some c =>
       if c.ty = str "image" then [Md.of { ty := str "paragraph", children := some [c] }]
       else [c]) ++ convertNodes rest b

/-- Embeds `items ?? []` fed to `convertListItems`. -/
def convertListItemsO : Option (List Tip) → Option Str → List Md
  | none, _ => []
  | some l, b => convertListItems l b

/-- Embeds `convertListItems` (tiptapToMdast.ts lines 236–245). -/
def convertListItems : List Tip → Option Str → List Md
  | [], _ => []
  | .mk _ _ ct _ _ :: rest, b =>
    Md.of { ty := str "listItem", spread := some false,
            children := some (liFixEmpty (liGoO ct b)) }
      :: convertListItems rest b

/-- Embeds `items ?? []` fed to `convertTaskItems`. -/
def convertTaskItemsO : Option (List Tip) → Option Str → List Md
  | none, _ => []
  | some l, b => convertTaskItems l b

/-- Embeds `convertTaskItems` (tiptapToMdast.ts lines 247–257). -/
def convertTaskItems : List Tip → Option Str → List Md
  | [], _ => []
  | .mk _ at_ ct _ _ :: rest, b =>
    Md.of { ty := str "listItem", spread := some false,
            checked := some (some ((at_.bind (·.checked)).getD false)),
            children := some (liFixEmpty (liGoO ct b)) }
      :: convertTaskItems rest b

/-- Embeds `nodes ?? []` fed to the `convertListItemContent` loop, with the empty
accumulator the source starts from. -/
def liGoO : Option (List Tip) → Option Str → List Md
  | none, _ => []
  | some l, b => liGo l b []

/-- The loop body of `convertListItemContent`
(tiptapToMdast.ts lines 263–292): the accumulator is the `result` array.  A
converted image is merged into a preceding *empty* paragraph when one ends
the accumulated result; otherwise it is wrapped in a fresh paragraph. -/
def liGo : List Tip → Option Str → List Md → List Md
  | [], _, acc => acc
  | n :: rest, b, acc =>
    if n.ty = str "image" then
      match convertNode n b with
      | some imgNode =>
        (match acc.getLast? with
         | some prev =>
           if prev.ty = str "paragraph" ∧
               (prev.children = none ∨ prev.children = some []) then
             liGo rest b (acc.dropLast ++ [prev.withChildren [imgNode]])
           else
             liGo rest b (acc ++ [Md.of { ty := str "paragraph", children := some [imgNode] }])
         | none =>
           liGo rest b (acc ++ [Md.of { ty := str "paragraph", children := some [imgNode] }]))
      | none => liGo rest b acc
    else
      match convertNode n b with
      | some converted => liGo rest b (acc ++ [converted])
      | none => liGo rest b acc

end

/-- Embeds `convertListItemContent` (tiptapToMdast.ts lines 259–296): the loop (from
the empty accumulator) plus the final empty-result fallback. -/
def convertListItemContent (nodes : List Tip) (b : Option Str) : List Md :=
  liFixEmpty (liGo nodes b [])

/-- Embeds `tiptapToMdast` (tiptapToMdast.ts lines 86–94). -/
def tiptapToMdast (doc : Tip) (b : Option Str) : Md :=
  Md.of { ty := str "root", children := some (convertNodesO doc.content b) }

end TiptapToMdast

/-!
## Shared helpers for the claim inputs
-/

/-- Embeds `{ type: "text", value := v }` (AST text node). -/
def mdText (v : Str) : Md := Md.of { ty := str "text", value := some v }

/-- An AST wrapper node of kind `t` with a single child. -/
def mdWrap (t : Str) (child : Md) : Md := Md.of { ty := t, children := some [child] }

/-!
## C2 — diagram fence pipeline round trip

The Markdown parse and stringify steps of the pipeline are the external
`remark` library, not code of this repository; the two fragments of its
behaviour the claim touches are modelled from the spec below.  Every other
step (`preprocessPlantuml`, `mdastToTiptap`, `tiptapToMdast`,
`postprocessPlantuml`) is the embedded repository code.
-/

/-- The three-line input of P5. -/
def c2input : Str := str "@startuml\nAlice -> Bob\n@enduml"

/-- Modelled from the spec: the external Markdown parser (§4.3, a standard
remark-based parser, not part of this repository's sources) turns a fenced
code block with an info string into a single AST `code` node carrying the
language, the remaining info string as `meta`, and the fence body as `value`. -/
def c2parsedAst : Md :=
  Md.of { ty := str "root",
          children := some [Md.of { ty := str "code", lang := some (str "plantuml"),
                                    meta := some (str "originalFormat:startuml"),
                                    value := some (str "@startuml\nAlice -> Bob\n@enduml") }] }

/-- Modelled from the spec: the external Markdown serializer (§4.6, remark
stringify, not part of this repository's sources) emits the empty string for
an AST root with no children. -/
def emptyRootMarkdown : Str := str ""

/-- The RDM diagram node the forward converter produces for `c2parsedAst`. -/
def c2diagramBlock : Tip :=
  Tip.mk (str "plantumlBlock")
    (some { language := some (str "plantuml"),
            source := some (str "@startuml\nAlice -> Bob\n@enduml"),
            viewMode := some (str "rendered"), originalFormat := some (str "startuml") })
    none none none

/-- C2: the three-line `@startuml` input does **not** survive the
preprocess → parse → RDM → serialize → postprocess pipeline.  The
preprocessor wraps it in a `` ```plantuml originalFormat:startuml `` fence
and the forward converter produces the `plantumlBlock` RDM node as
documented, but the reverse converter `tiptapToMdast` has no case for
`plantumlBlock`, so the RDM→AST step drops the diagram entirely: the
serialized document is the empty AST root, which stringifies to the empty
string, and no postprocessing can restore the three lines.  This contradicts
the preprocessor's own documentation ("preserved … through the round-trip"),
so the claim is recorded as a code bug; this theorem evaluates the pipeline
at the failing input. -/
theorem plantuml_pipeline_drops_diagram :
    preprocessPlantuml c2input
      = str "```plantuml originalFormat:startuml\n@startuml\nAlice -> Bob\n@enduml\n```" ∧
    MdastToTiptap.mdastToTiptap c2parsedAst none
      = Tip.mk (str "doc") none (some [c2diagramBlock]) none none ∧
    TiptapToMdast.tiptapToMdast (Tip.mk (str "doc") none (some [c2diagramBlock]) none none) none
      = Md.of { ty := str "root", children := some [] } ∧
    postprocessPlantuml emptyRootMarkdown = emptyRootMarkdown ∧
    emptyRootMarkdown ≠ c2input := by
  decide

/-!
## C6 — image path fidelity (P3)
-/

/-- The document base of P3. -/
def c6base : Str := str "https://example/doc-dir"

/-- Modelled from the spec: the external Markdown parser's AST for a source
paragraph reading `![alt](img/photo.png)` — a paragraph whose single child is
an inline image node (§3, §4.3, P3). -/
def c6parsedPara : Md :=
  Md.of { ty := str "paragraph",
          children := some [Md.of { ty := str "image", url := some (str "img/photo.png"),
                                    alt := some (str "alt"), title := none }] }

/-- The RDM image block the forward converter produces for `c6parsedPara`. -/
def c6imageBlock : Tip :=
  Tip.mk (str "image")
    (some { src := some (str "https://example/doc-dir/img/photo.png"),
            originalSrc := some (str "img/photo.png"),
            alt := some (str "alt"), title := none })
    none none none

/-- Modelled from the spec: the external serializer's emission for an AST
image node with no title, `![alt](url)` (§4.6, P3). -/
def emitImageMarkdown (alt url : Str) : Str :=
  str "![" ++ alt ++ str "](" ++ url ++ str ")"

/-- The AST image the reverse converter recovers from the round-tripped
image block. -/
def c6recoveredImage : Md :=
  Md.of { ty := str "image", url := some (str "img/photo.png"),
          alt := some (str "alt"), title := none }

/-- C6: with base `https://example/doc-dir`, the paragraph
`![alt](img/photo.png)` becomes a single RDM image block whose `src` is the
resolved URL and whose `originalSrc` is the verbatim reference; converting
that RDM back yields an AST image with `url = "img/photo.png"` (the
`originalSrc` is preferred — the `unresolveImageUrl` fallback would have
returned the resolved `https://…` URL unchanged), which serializes to
`![alt](img/photo.png)`. -/
theorem image_path_fidelity :
    MdastToTiptap.convertNode c6parsedPara (some c6base) = some (.one c6imageBlock) ∧
    TiptapToMdast.tiptapToMdast (Tip.mk (str "doc") none (some [c6imageBlock]) none none)
        (some c6base)
      = Md.of { ty := str "root",
                children := some [Md.of { ty := str "paragraph",
                                          children := some [c6recoveredImage] }] } ∧
    TiptapToMdast.unresolveImageUrl (str "https://example/doc-dir/img/photo.png")
        (some c6base) ≠ str "img/photo.png" ∧
    emitImageMarkdown (str "alt") (str "img/photo.png") = str "![alt](img/photo.png)" := by
  decide

/-!
## C9 — hard break mapping
-/

/-- C9 counterexample: a `break` node among a paragraph's inline children is
**dropped** by the AST → RDM conversion — the paragraph
`[text "a", break, text "b"]` converts to a paragraph holding only the two
text runs, with no `hardBreak` node at (or anywhere near) the break's
position.  The forward inline converter's `case "break"` returns the empty
array, so the claimed 1:1 rename does not happen on the forward path. -/
theorem break_dropped_counterexample :
    MdastToTiptap.convertNode
        (Md.of { ty := str "paragraph",
                 children := some [mdText (str "a"), Md.bare (str "break"), mdText (str "b")] })
        none
      = some (.one (Tip.mk (str "paragraph") none
          (some [Tip.textPlain (str "a"), Tip.textPlain (str "b")]) none none)) ∧
    ∀ q ∈ [Tip.textPlain (str "a"), Tip.textPlain (str "b")], q.ty ≠ str "hardBreak" := by
  decide

/-- C9 (amended): the RDM → AST direction does map `hardBreak` to an AST
`break` node, both among a paragraph's inline children and at block level,
and the AST → RDM converter maps a *block-level* `break` node to `hardBreak`;
but a `break` node among a paragraph's inline children is dropped by the
forward inline converter (it produces no RDM node), so the claimed forward
1:1 rename holds only at block level. -/
theorem hardBreak_mapping_amended :
    (∀ ch v d o chk u a ti l m sp marks b,
      MdastToTiptap.convertInlineNode (Md.mk (str "break") ch v d o chk u a ti l m sp)
        marks b = []) ∧
    (∀ ch v d o chk u a ti l m sp b,
      MdastToTiptap.convertNode (Md.mk (str "break") ch v d o chk u a ti l m sp) b
        = some (.one (Tip.bare (str "hardBreak")))) ∧
    (∀ at_ ct mks tx rest b,
      TiptapToMdast.convertInlineContent (Tip.mk (str "hardBreak") at_ ct mks tx :: rest) b
        = Md.bare (str "break") :: TiptapToMdast.convertInlineContent rest b) ∧
    (∀ at_ ct mks tx b,
      TiptapToMdast.convertNode (Tip.mk (str "hardBreak") at_ ct mks tx) b
        = some (Md.bare (str "break"))) := by
  refine ⟨fun ch v d o chk u a ti l m sp marks b => rfl,
          fun ch v d o chk u a ti l m sp b => rfl,
          fun at_ ct mks tx rest b => rfl,
          fun at_ ct mks tx b => rfl⟩

/-!
## C10 — unknown RDM node kinds are dropped silently
-/

/-- The RDM node kinds the reverse converter recognises (the cases of
`convertNode` in tiptapToMdast.ts). -/
def recognizedTipKinds : List Str :=
  [str "heading", str "paragraph", str "blockquote", str "codeBlock",
   str "bulletList", str "orderedList", str "taskList", str "listItem",
   str "taskItem", str "horizontalRule", str "hardBreak", str "image", str "table"]

/-- C10: an RDM node whose kind the reverse converter does not recognise
produces no AST node (`convertNode` returns `null`, never an error — the
embedding is total), and the surrounding siblings convert exactly as if the
unknown node were absent. -/
theorem unknown_tip_kind_dropped (n : Tip) (b : Option Str)
    (h : n.ty ∉ recognizedTipKinds) :
    TiptapToMdast.convertNode n b = none ∧
    ∀ pre post, TiptapToMdast.convertNodes (pre ++ n :: post) b
      = TiptapToMdast.convertNodes (pre ++ post) b := by
  obtain ⟨t, at_, ct, mks, tx⟩ := n
  simp only [recognizedTipKinds, List.mem_cons, List.mem_singleton, Tip.ty,
    not_or] at h
  obtain ⟨h1, h2, h3, h4, h5, h6, h7, h8, h9, h10, h11, h12, h13, -⟩ := h
  have hnone : TiptapToMdast.convertNode (Tip.mk t at_ ct mks tx) b = none := by
    simp only [TiptapToMdast.convertNode]
    rw [if_neg h1, if_neg h2, if_neg h3, if_neg h4, if_neg h5, if_neg h6,
      if_neg h7, if_neg h8, if_neg h9, if_neg h10, if_neg h11, if_neg h12,
      if_neg h13]
  refine ⟨hnone, fun pre post => ?_⟩
  induction pre with
  | nil => simp [TiptapToMdast.convertNodes, hnone]
  | cons p pre ih => simp [TiptapToMdast.convertNodes, ih]

/-- C10 witness: the unknown kind `someUnknownNode` (the kind used by the
repository's own test) is dropped between two recognised siblings. -/
theorem unknown_tip_kind_dropped_witness :
    TiptapToMdast.convertNode (Tip.bare (str "someUnknownNode")) none = none ∧
    TiptapToMdast.convertNodes
        [Tip.bare (str "horizontalRule"), Tip.bare (str "someUnknownNode"),
         Tip.paragraphEmpty] none
      = TiptapToMdast.convertNodes [Tip.bare (str "horizontalRule"), Tip.paragraphEmpty]
          none :=
  ⟨(unknown_tip_kind_dropped (Tip.bare (str "someUnknownNode")) none (by decide)).1,
   (unknown_tip_kind_dropped (Tip.bare (str "someUnknownNode")) none (by decide)).2
     [Tip.bare (str "horizontalRule")] [Tip.paragraphEmpty]⟩

/-!
## C3 — list-item content invariant (P6)
-/

/-- C3: the content produced by `convertListItemContent` for an AST list
item is never empty and always begins with a paragraph node: if the
conversion loop yields nothing a single empty paragraph is synthesized, and
if the loop's first node is not a paragraph (e.g. the item starts with an
extracted block image) an empty paragraph is prepended. -/
theorem listItemContent_starts_with_paragraph (children : List Md) (b : Option Str) :
    MdastToTiptap.convertListItemContent children b ≠ [] ∧
    (MdastToTiptap.convertListItemContent children b).head?.map Tip.ty
      = some (str "paragraph") ∧
    (MdastToTiptap.liLoop children b = [] →
      MdastToTiptap.convertListItemContent children b = [Tip.paragraphEmpty]) ∧
    (∀ t ts, MdastToTiptap.liLoop children b = t :: ts → t.ty ≠ str "paragraph" →
      MdastToTiptap.convertListItemContent children b = Tip.paragraphEmpty :: t :: ts) := by
  unfold MdastToTiptap.convertListItemContent
  cases h : MdastToTiptap.liLoop children b with
  | nil =>
    refine ⟨by simp [MdastToTiptap.liFix], ?_, fun _ => rfl, fun t ts hne => by simp at hne⟩
    simp [MdastToTiptap.liFix, Tip.paragraphEmpty, Tip.ty]
  | cons t ts =>
    by_cases ht : t.ty = str "paragraph"
    · refine ⟨?_, ?_, fun habs => by simp at habs, fun t' ts' heq hne => ?_⟩
      · simp [MdastToTiptap.liFix, ht]
      · simp [MdastToTiptap.liFix, ht]
      · obtain ⟨rfl, rfl⟩ := List.cons.injEq .. ▸ heq
        exact absurd ht hne
    · refine ⟨?_, ?_, fun habs => by simp at habs, fun t' ts' heq hne => ?_⟩
      · simp [MdastToTiptap.liFix, ht]
      · rw [MdastToTiptap.liFix, if_pos ht]
        rfl
      · obtain ⟨rfl, rfl⟩ := List.cons.injEq .. ▸ heq
        rw [MdastToTiptap.liFix, if_pos ht]

/-- C3 witness: a list item whose only child paragraph consists of a single
image — the loop yields the extracted block image first, and the produced
content is an empty paragraph followed by the image, never the image first
(P6). -/
theorem listItemContent_starts_with_paragraph_witness :
    MdastToTiptap.convertListItemContent
        [Md.of { ty := str "paragraph",
                 children := some [Md.of { ty := str "image",
                                           url := some (str "a.png") }] }] none
      = Tip.paragraphEmpty
          :: Tip.mk (str "image")
              (some { src := some (str "a.png"), originalSrc := some (str "a.png"),
                      alt := none, title := none }) none none none
          :: [] :=
  (listItemContent_starts_with_paragraph
      [Md.of { ty := str "paragraph",
               children := some [Md.of { ty := str "image",
                                         url := some (str "a.png") }] }] none).2.2.2
    (Tip.mk (str "image")
      (some { src := some (str "a.png"), originalSrc := some (str "a.png"),
              alt := none, title := none }) none none none)
    [] (by decide) (by decide)

/-!
## C4 — mark wrapping order on inline text runs
-/

def c4boldMark : Mark := Mark.mk (str "bold") none none none
def c4italicMark : Mark := Mark.mk (str "italic") none none none
def c4strikeMark : Mark := Mark.mk (str "strike") none none none
def c4codeMark : Mark := Mark.mk (str "code") none none none
def c4linkMark : Mark := Mark.mk (str "link") (some (str "u")) none none

/-- The wrapping rule in the *spec's* words (refinement definition for
comparison with the source's `wrapInMark` fold, not translated from the
source): a `code` mark wins exclusively, discarding all other marks on the
run; otherwise the run is wrapped innermost-to-outermost as
strong → emphasis → strike → link, regardless of the listed order. -/
def specFixedOrderWrap (v : Str) (marks : List Mark) : Md :=
  if marks.any (fun mq => decide (mq.ty = str "code")) then
    Md.of { ty := str "inlineCode", value := some v }
  else
    let n0 := Md.of { ty := str "text", value := some v }
    let n1 := if marks.any (fun mq => decide (mq.ty = str "bold")) then
        Md.of { ty := str "strong", children := some [n0] } else n0
    let n2 := if marks.any (fun mq => decide (mq.ty = str "italic")) then
        Md.of { ty := str "emphasis", children := some [n1] } else n1
    let n3 := if marks.any (fun mq => decide (mq.ty = str "strike")) then
        Md.of { ty := str "delete", children := some [n2] } else n2
    match marks.find? (fun mq => decide (mq.ty = str "link")) with
    | some lm => Md.of { ty := str "link", url := some (lm.href.getD []),
                         title := lm.title, children := some [n3] }
    | none => n3

/-- C4 counterexample: for a text run listing its marks as `[link, bold]`,
the converter wraps in *listed* order and produces `strong(link(text))`,
whereas the claimed fixed innermost-to-outermost order
strong → emphasis → strike → link requires `link(strong(text))`; the two
disagree. -/
theorem markOrder_counterexample :
    TiptapToMdast.convertInlineContent
        [Tip.mk (str "text") none none (some [c4linkMark, c4boldMark]) (some (str "x"))]
        none
      = [mdWrap (str "strong")
          (Md.of { ty := str "link", url := some (str "u"), title := none,
                   children := some [mdText (str "x")] })] ∧
    specFixedOrderWrap (str "x") [c4linkMark, c4boldMark]
      = Md.of { ty := str "link", url := some (str "u"), title := none,
                children := some [mdWrap (str "strong") (mdText (str "x"))] } ∧
    TiptapToMdast.convertInlineContent
        [Tip.mk (str "text") none none (some [c4linkMark, c4boldMark]) (some (str "x"))]
        none
      ≠ [specFixedOrderWrap (str "x") [c4linkMark, c4boldMark]] := by
  decide

/-- C4 (amended): marks on a text run are applied via `wrapInMark` in the
order they are listed on the run, each wrapping the previous result
(bold→strong, italic→emphasis, strike→delete, link→link), so the nesting is
determined by the listed order; when the listed order is
`[bold, italic, strike, link]` the claimed chain is produced.  A `code` mark
does not win exclusively: it replaces the so-far-wrapped node by an
`inlineCode` carrying that node's `value` — the run's text when `code` is
listed first (later marks still wrap the `inlineCode`), and the empty string
(losing the text) when `code` follows a wrapping mark. -/
theorem markOrder_amended :
    (∀ (marks : List Mark) (at_ : Option Attrs) (ct : Option (List Tip))
        (tx : Option Str) (rest : List Tip) (b : Option Str),
      TiptapToMdast.convertInlineContent (Tip.mk (str "text") at_ ct (some marks) tx :: rest) b
        = marks.foldl TiptapToMdast.wrapInMark
            (Md.of { ty := str "text", value := some (tx.getD []) })
            :: TiptapToMdast.convertInlineContent rest b) ∧
    TiptapToMdast.convertInlineContent
        [Tip.mk (str "text") none none
          (some [c4boldMark, c4italicMark, c4strikeMark, c4linkMark]) (some (str "x"))]
        none
      = [Md.of { ty := str "link", url := some (str "u"), title := none,
                 children := some [mdWrap (str "delete") (mdWrap (str "emphasis")
                   (mdWrap (str "strong") (mdText (str "x"))))] }] ∧
    TiptapToMdast.convertInlineContent
        [Tip.mk (str "text") none none (some [c4codeMark, c4boldMark]) (some (str "x"))]
        none
      = [mdWrap (str "strong")
          (Md.of { ty := str "inlineCode", value := some (str "x") })] ∧
    TiptapToMdast.convertInlineContent
        [Tip.mk (str "text") none none (some [c4boldMark, c4codeMark]) (some (str "x"))]
        none
      = [Md.of { ty := str "inlineCode", value := some (str "") }] := by
  exact ⟨fun marks at_ ct tx rest b => rfl, by decide, by decide, by decide⟩

/-!
## C5 — task-list classification (P4)
-/

theorem liLoopO_eq_liLoop (o : Option (List Md)) (b : Option Str) :
    MdastToTiptap.liLoopO o b = MdastToTiptap.liLoop (o.getD []) b := by
  cases o <;> rfl

theorem checked_match_iff (cc : Option (Option Bool)) :
    (match cc with | some (some _) => true | _ => false) = true
      ↔ ∃ bv, cc = some (some bv) := by
  rcases cc with _ | (_ | bv) <;> simp

/-- C5: an unordered AST `list` node converts to an RDM `taskList` iff at
least one direct child is a `listItem` whose `checked` field is present
(neither `null` nor `undefined`); and in a task list every item becomes a
`taskItem`, in the original order, whose `checked` attribute is `true`
exactly when the AST item's `checked` is `true`. -/
theorem taskList_classification (ch : Option (List Md)) (v : Option Str) (d : Option Nat)
    (o : Option Bool) (chk : Option (Option Bool)) (u a ti l m : Option Str)
    (sp : Option Bool) (b : Option Str) (hord : o ≠ some true) :
    (MdastToTiptap.convertNode (Md.mk (str "list") ch v d o chk u a ti l m sp) b
        = some (.one (Tip.mk (str "taskList") none
            (some (MdastToTiptap.convertListItemsO ch true b)) none none))
      ↔ ∃ c ∈ ch.getD [], c.ty = str "listItem" ∧ ∃ bv, c.checked = some (some bv)) ∧
    (∀ (items : List Md) (b' : Option Str),
      MdastToTiptap.convertListItems items true b' = items.map (fun it =>
        Tip.mk (str "taskItem")
          (some { checked := some (decide (it.checked = some (some true))) })
          (some (MdastToTiptap.convertListItemContent (it.children.getD []) b'))
          none none)) := by
  constructor
  · have hstep : MdastToTiptap.convertNode (Md.mk (str "list") ch v d o chk u a ti l m sp) b
        = (if o = some true then
            some (.one (Tip.mk (str "orderedList") none
              (some (MdastToTiptap.convertListItemsO ch false b)) none none))
          else if (ch.getD []).any (fun c =>
              decide (c.ty = str "listItem") && match c.checked with
                | some (some _) => true | _ => false) then
            some (.one (Tip.mk (str "taskList") none
              (some (MdastToTiptap.convertListItemsO ch true b)) none none))
          else
            some (.one (Tip.mk (str "bulletList") none
              (some (MdastToTiptap.convertListItemsO ch false b)) none none))) := rfl
    rw [hstep, if_neg hord]
    by_cases hc : (ch.getD []).any (fun c =>
        decide (c.ty = str "listItem") && match c.checked with
          | some (some _) => true | _ => false) = true
    · rw [if_pos hc]
      simp only [List.any_eq_true, Bool.and_eq_true, decide_eq_true_eq,
        checked_match_iff] at hc
      exact iff_of_true rfl hc
    · rw [if_neg hc]
      refine iff_of_false (fun habs => ?_) (fun habs => ?_)
      · have h1 : MdastToTiptap.ConvRes.one (Tip.mk (str "bulletList") none
            (some (MdastToTiptap.convertListItemsO ch false b)) none none)
            = MdastToTiptap.ConvRes.one (Tip.mk (str "taskList") none
              (some (MdastToTiptap.convertListItemsO ch true b)) none none) :=
          Option.some.inj habs
        have h2 := MdastToTiptap.ConvRes.one.inj h1
        have hty := (Tip.mk.injEq .. ▸ h2).1
        exact absurd hty (by decide)
      · refine hc ?_
        simp only [List.any_eq_true, Bool.and_eq_true, decide_eq_true_eq,
          checked_match_iff]
        exact habs
  · intro items b'
    induction items with
    | nil => rfl
    | cons it rest ih =>
      obtain ⟨t', ch', v', d', o', chk', u', a', ti', l', m', sp'⟩ := it
      simp only [MdastToTiptap.convertListItems, List.map_cons, ih,
        MdastToTiptap.convertListItemContent, liLoopO_eq_liLoop, if_pos trivial,
        Md.checked, Md.children, List.cons.injEq, and_true]
      try rfl

/-- Modelled from the spec: the external parser's AST (remark with the GFM
extension, not part of this repository's sources) for
`"- [ ] Todo\n- [x] Done"` — an unordered list of two `listItem`s carrying
`checked: false` and `checked: true` (§4.3, P4). -/
def c5taskItemAst (cv : Bool) (txt : Str) : Md :=
  Md.of { ty := str "listItem", checked := some (some cv),
          children := some [Md.of { ty := str "paragraph",
                                    children := some [mdText txt] }] }

/-- The expected RDM task item. -/
def c5taskItemTip (cv : Bool) (txt : Str) : Tip :=
  Tip.mk (str "taskItem") (some { checked := some cv })
    (some [Tip.mk (str "paragraph") none (some [Tip.textPlain txt]) none none])
    none none

/-- C5 witness: the P4 list converts to a `taskList` whose two `taskItem`s
carry `checked = false` and `checked = true`, in that order. -/
theorem taskList_classification_witness :
    MdastToTiptap.convertNode
        (Md.mk (str "list")
          (some [c5taskItemAst false (str "Todo"), c5taskItemAst true (str "Done")])
          none none (some false) none none none none none none none) none
      = some (.one (Tip.mk (str "taskList") none
          (some [c5taskItemTip false (str "Todo"), c5taskItemTip true (str "Done")])
          none none)) := by
  have h := (taskList_classification
      (some [c5taskItemAst false (str "Todo"), c5taskItemAst true (str "Done")])
      none none (some false) none none none none none none none none
      (by decide)).1.mpr (by decide)
  exact h.trans (by decide)

/-!
## C7 — resolve / unresolve inverse property
-/

theorem jsStartsWith_append (p s : Str) : jsStartsWith (p ++ s) p = true := by
  rw [jsStartsWith, List.isPrefixOf_iff_prefix]
  exact List.prefix_append p s

/-- C7 counterexample: with the spec's own P3 base
`https://example/doc-dir` and the plain relative reference `img/photo.png`,
`unresolveImageUrl` returns the resolved URL **unchanged** (it early-returns
any `http://`/`https://`/`data:` URL), so the claimed inverse property fails
for every `http(s)` base. -/
theorem unresolve_resolve_counterexample :
    MdastToTiptap.resolveImageUrl (str "img/photo.png")
        (some (str "https://example/doc-dir"))
      = str "https://example/doc-dir/img/photo.png" ∧
    TiptapToMdast.unresolveImageUrl
        (MdastToTiptap.resolveImageUrl (str "img/photo.png")
          (some (str "https://example/doc-dir")))
        (some (str "https://example/doc-dir"))
      = str "https://example/doc-dir/img/photo.png" ∧
    TiptapToMdast.unresolveImageUrl
        (MdastToTiptap.resolveImageUrl (str "img/photo.png")
          (some (str "https://example/doc-dir")))
        (some (str "https://example/doc-dir"))
      ≠ str "img/photo.png" := by
  decide

/-- C7 (amended): the inverse property
`unresolveImageUrl (resolveImageUrl ref base) base = ref` holds for a
non-empty plain relative `ref` (not starting with `http://`, `https://`,
`data:` or `vscode-webview:`) and a non-empty `base`, **provided** the
resolved URL (`base` with a trailing slash trimmed, then `/`, then `ref`)
does not itself start with `http://`, `https://` or `data:` (so no `http(s)`
or `data:` base) and does not contain the substrings `vscode-resource` or
`vscode-webview` (which would route it through the URL-parsing heuristic). -/
theorem resolve_unresolve_amended (ref base : Str)
    (href : ref ≠ []) (hbase : base ≠ [])
    (h1 : jsStartsWith ref (str "http://") = false)
    (h2 : jsStartsWith ref (str "https://") = false)
    (h3 : jsStartsWith ref (str "data:") = false)
    (h4 : jsStartsWith ref (str "vscode-webview:") = false)
    (h5 : jsStartsWith (trimTrailingSlash base ++ '/' :: ref) (str "http://") = false)
    (h6 : jsStartsWith (trimTrailingSlash base ++ '/' :: ref) (str "https://") = false)
    (h7 : jsStartsWith (trimTrailingSlash base ++ '/' :: ref) (str "data:") = false)
    (h8 : jsIncludes (trimTrailingSlash base ++ '/' :: ref) (str "vscode-resource") = false)
    (h9 : jsIncludes (trimTrailingSlash base ++ '/' :: ref) (str "vscode-webview") = false) :
    TiptapToMdast.unresolveImageUrl (MdastToTiptap.resolveImageUrl ref (some base))
      (some base) = ref := by
  have hres : MdastToTiptap.resolveImageUrl ref (some base)
      = trimTrailingSlash base ++ '/' :: ref := by
    unfold MdastToTiptap.resolveImageUrl
    rw [if_neg (by simp [hbase, href]), if_neg (by simp [h1, h2, h3, h4])]
    rfl
  have hconcat : trimTrailingSlash base ++ '/' :: ref
      = (trimTrailingSlash base ++ ['/']) ++ ref := by simp
  rw [hres]
  unfold TiptapToMdast.unresolveImageUrl
  rw [if_neg (by simp [hbase]), if_neg (by simp [h5, h6, h7])]
  simp only [Option.getD_some]
  rw [if_neg (by simp [h8, h9])]
  rw [hconcat, jsStartsWith_append]
  simp [List.drop_left]

/-- C7 witness: the amended inverse property at `ref = "img/photo.png"`,
`base = "media"`. -/
theorem resolve_unresolve_amended_witness :
    TiptapToMdast.unresolveImageUrl
        (MdastToTiptap.resolveImageUrl (str "img/photo.png") (some (str "media")))
        (some (str "media"))
      = str "img/photo.png" :=
  resolve_unresolve_amended (str "img/photo.png") (str "media")
    (by decide) (by decide) (by decide) (by decide) (by decide) (by decide)
    (by decide) (by decide) (by decide) (by decide) (by decide)

/-!
## C8 — `postprocessPlantuml ∘ preprocessPlantuml` round trip

`goodGo` is a decidable side condition on the line scan under which the
round trip is provable: no scanned line may itself look like the
`` ```plantuml originalFormat:startuml `` fence the preprocessor emits, and
no line captured inside a `@startuml` block (the markers aside) may trim to
the bare closing fence ```` ``` ```` or look like that fence line.  The
counterexample theorem below shows the condition is not vacuous: without it
the round trip genuinely fails.
-/

/-- The side condition for the round-trip theorem, following `preGo`'s scan. -/
def goodGo : List Str → PreScan → Bool
  | [], _ => true
  | l :: rest, .normal inside =>
    let t := jsTrimStart l
    !(isMetaLine t) &&
    (if ¬inside ∧ isFenceOpen t then goodGo rest (.normal true)
     else if inside ∧ isFenceClose t then goodGo rest (.normal false)
     else if ¬inside ∧ jsStartsWith t (str "@startuml") then goodGo rest (.capturing [l])
     else goodGo rest (.normal inside))
  | l :: rest, .capturing acc =>
    if jsStartsWith (jsTrimStart l) (str "@enduml") then goodGo rest (.normal false)
    else
      (!(isMetaLine (jsTrimStart l)) && decide (jsTrimStart l ≠ str "```")) &&
        goodGo rest (.capturing (acc ++ [l]))

theorem startsWith_at_shape (t marker : Str)
    (h : jsStartsWith t ('@' :: marker) = true) : ∃ ts, t = '@' :: ts := by
  cases t with
  | nil => simp [jsStartsWith, List.isPrefixOf] at h
  | cons c cs =>
    simp only [jsStartsWith, List.isPrefixOf, Bool.and_eq_true, beq_iff_eq] at h
    exact ⟨cs, by rw [← h.1]⟩

theorem at_head_props (ts : Str) :
    ('@' :: ts : Str) ≠ str "```" ∧ isMetaLine ('@' :: ts) = false := by
  constructor
  · intro h
    have hh := congrArg List.head? h
    simp only [List.head?_cons] at hh
    have : ('@' : Char) = '`' := by
      have hstr : (str "```").head? = some '`' := rfl
      rw [hstr] at hh
      exact Option.some.inj hh
    simp at this
  · rfl

theorem postGo_all_plain (ls : List Str)
    (h : ∀ m ∈ ls, isMetaLine (jsTrimStart m) = false) : postGo ls .normal = ls := by
  induction ls with
  | nil => rfl
  | cons m ms ih =>
    rw [postGo, if_neg (by simp [h m (List.mem_cons_self ..)])]
    exact congrArg (m :: ·) (ih (fun x hx => h x (List.mem_cons_of_mem _ hx)))

theorem postGo_collect (content : List Str)
    (h : ∀ m ∈ content, jsTrimStart m ≠ str "```") (rest acc : List Str) :
    postGo (content ++ str "```" :: rest) (.collecting acc)
      = (acc ++ content) ++ postGo rest .normal := by
  induction content generalizing acc with
  | nil =>
    have htrim : jsTrimStart (str "```") = str "```" := by decide
    rw [List.nil_append, postGo, if_pos htrim, List.append_nil]
  | cons m ms ihc =>
    rw [List.cons_append, postGo, if_neg (h m (List.mem_cons_self ..)),
      ihc (fun x hx => h x (List.mem_cons_of_mem _ hx)) (acc ++ [m])]
    simp

theorem pre_post_roundtrip_aux (ls : List Str) :
    (∀ inside, goodGo ls (.normal inside) = true →
      postGo (preGo ls (.normal inside)) .normal = ls) ∧
    (∀ acc, (∀ m ∈ acc, jsTrimStart m ≠ str "```" ∧ isMetaLine (jsTrimStart m) = false) →
      goodGo ls (.capturing acc) = true →
      postGo (preGo ls (.capturing acc)) .normal = acc ++ ls) := by
  induction ls with
  | nil =>
    refine ⟨fun inside _ => rfl, fun acc hacc _ => ?_⟩
    show postGo acc .normal = acc ++ []
    rw [List.append_nil]
    exact postGo_all_plain acc (fun m hm => (hacc m hm).2)
  | cons l rest ih =>
    constructor
    · intro inside hgood
      simp only [goodGo, Bool.and_eq_true, Bool.not_eq_true'] at hgood
      obtain ⟨hmeta, hrest⟩ := hgood
      simp only [preGo]
      split_ifs at hrest ⊢ with h1 h2 h3
      · rw [postGo, if_neg (by simp [hmeta])]
        exact congrArg (l :: ·) (ih.1 true hrest)
      · rw [postGo, if_neg (by simp [hmeta])]
        exact congrArg (l :: ·) (ih.1 false hrest)
      · obtain ⟨ts, hts⟩ := startsWith_at_shape _ (str "startuml") h3.2
        have hprops := at_head_props ts
        have hcond : ∀ m ∈ [l], jsTrimStart m ≠ str "```" ∧
            isMetaLine (jsTrimStart m) = false := by
          intro m hm
          rw [List.mem_singleton] at hm
          subst hm
          rw [hts]
          exact hprops
        simpa using ih.2 [l] hcond hrest
      · rw [postGo, if_neg (by simp [hmeta])]
        exact congrArg (l :: ·) (ih.1 inside hrest)
    · intro acc hacc hgood
      simp only [goodGo] at hgood
      simp only [preGo]
      by_cases hend : jsStartsWith (jsTrimStart l) (str "@enduml") = true
      · rw [if_pos hend] at hgood ⊢
        have hmetaFence : isMetaLine (jsTrimStart plantumlFenceLine) = true := by decide
        rw [postGo, if_pos hmetaFence]
        obtain ⟨ts, hts⟩ := startsWith_at_shape _ (str "enduml") hend
        have hcontent : ∀ m ∈ acc ++ [l], jsTrimStart m ≠ str "```" := by
          intro m hm
          rcases List.mem_append.mp hm with h | h
          · exact (hacc m h).1
          · rw [List.mem_singleton] at h
            subst h
            rw [hts]
            exact (at_head_props ts).1
        rw [postGo_collect (acc ++ [l]) hcontent _ [], ih.1 false hgood]
        simp
      · rw [if_neg hend] at hgood ⊢
        simp only [Bool.and_eq_true, Bool.not_eq_true', decide_eq_true_eq] at hgood
        obtain ⟨⟨hm, hne⟩, hg⟩ := hgood
        have hext : ∀ m ∈ acc ++ [l], jsTrimStart m ≠ str "```" ∧
            isMetaLine (jsTrimStart m) = false := by
          intro m hmem
          rcases List.mem_append.mp hmem with h | h
          · exact hacc m h
          · rw [List.mem_singleton] at h
            subst h
            exact ⟨hne, hm⟩
        simpa using ih.2 (acc ++ [l]) hext hg

theorem mem_splitOnC_not_sep (sep : Char) (s : Str) :
    ∀ l ∈ splitOnC sep s, sep ∉ l := by
  induction s with
  | nil =>
    intro l hl
    simp only [splitOnC, List.mem_singleton] at hl
    simp [hl]
  | cons c rest ih =>
    intro l hl
    simp only [splitOnC] at hl
    split at hl
    · rcases List.mem_cons.mp hl with h | h
      · simp [h]
      · exact ih l h
    · rename_i hc
      cases hsp : splitOnC sep rest with
      | nil => exact absurd hsp (splitOnC_ne_nil sep rest)
      | cons h' t' =>
        rw [hsp] at hl
        rcases List.mem_cons.mp hl with h | h
        · subst h
          intro hmem
          rcases List.mem_cons.mp hmem with h | h
          · exact hc h.symm
          · exact ih h' (hsp ▸ List.mem_cons_self ..) h
        · exact ih l (hsp ▸ List.mem_cons_of_mem _ h)

theorem splitOnC_of_not_mem (sep : Char) (s : Str) (h : sep ∉ s) :
    splitOnC sep s = [s] := by
  induction s with
  | nil => rfl
  | cons c rest ih =>
    have hc : ¬c = sep := fun hcc => h (hcc ▸ List.mem_cons_self ..)
    have hr : sep ∉ rest := fun hm => h (List.mem_cons_of_mem _ hm)
    simp only [splitOnC, if_neg hc, ih hr]

theorem splitOnC_append_sep (sep : Char) (l r : Str) (h : sep ∉ l) :
    splitOnC sep (l ++ sep :: r) = l :: splitOnC sep r := by
  induction l with
  | nil => simp [splitOnC]
  | cons c cs ih =>
    have hc : ¬c = sep := fun hcc => h (hcc ▸ List.mem_cons_self ..)
    have hcs : sep ∉ cs := fun hm => h (List.mem_cons_of_mem _ hm)
    rw [List.cons_append]
    simp only [splitOnC, if_neg hc, ih hcs]

theorem splitOnC_joinC (sep : Char) (ls : List Str) (hne : ls ≠ [])
    (h : ∀ l ∈ ls, sep ∉ l) : splitOnC sep (joinC sep ls) = ls := by
  induction ls with
  | nil => exact absurd rfl hne
  | cons l t ih =>
    cases t with
    | nil => exact splitOnC_of_not_mem sep l (h l (List.mem_cons_self ..))
    | cons h' t' =>
      rw [joinC_cons_cons,
        splitOnC_append_sep sep l _ (h l (List.mem_cons_self ..)),
        ih (by simp) (fun x hx => h x (List.mem_cons_of_mem _ hx))]

theorem preGo_ne_nil (ls : List Str) :
    (∀ inside, ls ≠ [] → preGo ls (.normal inside) ≠ []) ∧
    (∀ acc, acc ≠ [] → preGo ls (.capturing acc) ≠ []) := by
  induction ls with
  | nil => exact ⟨fun _ h => absurd rfl h, fun acc hacc => hacc⟩
  | cons l rest ih =>
    refine ⟨fun inside _ => ?_, fun acc hacc => ?_⟩
    · simp only [preGo]
      split_ifs with h1 h2 h3
      · exact List.cons_ne_nil _ _
      · exact List.cons_ne_nil _ _
      · exact ih.2 [l] (List.cons_ne_nil _ _)
      · exact List.cons_ne_nil _ _
    · simp only [preGo]
      split_ifs with h1
      · exact List.cons_ne_nil _ _
      · exact ih.2 (acc ++ [l]) (by simp)

theorem preGo_no_nl (ls : List Str) (hls : ∀ l ∈ ls, '\n' ∉ l) :
    (∀ inside, ∀ x ∈ preGo ls (.normal inside), '\n' ∉ x) ∧
    (∀ acc, (∀ m ∈ acc, '\n' ∉ m) → ∀ x ∈ preGo ls (.capturing acc), '\n' ∉ x) := by
  induction ls with
  | nil =>
    refine ⟨fun inside x hx => by simp [preGo] at hx, fun acc hacc x hx => ?_⟩
    exact hacc x hx
  | cons l rest ih =>
    have hl : '\n' ∉ l := hls l (List.mem_cons_self ..)
    have hrest : ∀ x ∈ rest, '\n' ∉ x := fun x hx => hls x (List.mem_cons_of_mem _ hx)
    have ih' := ih hrest
    refine ⟨fun inside x hx => ?_, fun acc hacc x hx => ?_⟩
    · simp only [preGo] at hx
      split_ifs at hx with h1 h2 h3
      · rcases List.mem_cons.mp hx with h | h
        · exact h ▸ hl
        · exact ih'.1 true x h
      · rcases List.mem_cons.mp hx with h | h
        · exact h ▸ hl
        · exact ih'.1 false x h
      · exact ih'.2 [l] (by simpa using hl) x hx
      · rcases List.mem_cons.mp hx with h | h
        · exact h ▸ hl
        · exact ih'.1 inside x h
    · simp only [preGo] at hx
      split_ifs at hx with h1
      · rcases List.mem_cons.mp hx with h | h
        · subst h
          decide
        · rcases List.mem_append.mp h with h' | h'
          · rcases List.mem_append.mp h' with h'' | h''
            · exact hacc x h''
            · rw [List.mem_singleton] at h''
              exact h'' ▸ hl
          · rcases List.mem_cons.mp h' with h'' | h''
            · subst h''
              decide
            · exact ih'.1 false x h''
      · refine ih'.2 (acc ++ [l]) ?_ x hx
        intro m hm
        rcases List.mem_append.mp hm with h | h
        · exact hacc m h
        · rw [List.mem_singleton] at h
          exact h ▸ hl

/-- The round-trip side condition at the string level. -/
def goodPlantuml (x : Str) : Bool := goodGo (splitNl x) (.normal false)

/-- C8 counterexample: the input `@startuml\n```\n@enduml` consists of
exactly one diagram block delimited by the literal `@startuml`/`@enduml`
marker pair, yet `postprocessPlantuml (preprocessPlantuml x)` is
`@startuml\n@enduml\n```` ``` `` — the bare ```` ``` ```` line inside the
captured block prematurely terminates the postprocessor's fence collection,
so the round trip does not return `x`. -/
theorem plantuml_roundtrip_counterexample :
    postprocessPlantuml (preprocessPlantuml (str "@startuml\n```\n@enduml"))
      = str "@startuml\n@enduml\n```" ∧
    str "@startuml\n@enduml\n```" ≠ str "@startuml\n```\n@enduml" := by
  decide

/-- C8 (amended): `postprocessPlantuml (preprocessPlantuml x) = x` holds for
every input `x` satisfying `goodPlantuml` — no line of `x` may look like the
`` ```plantuml originalFormat:startuml `` fence the preprocessor emits, and
no line captured inside a `@startuml`/`@enduml` block (markers aside) may
trim to the bare closing fence ```` ``` ```` or look like that fence line;
the unrestricted claim fails (see the counterexample).  Moreover, while the
scanner is inside an already-open fenced code block, every line passes
through unchanged — in particular a `@startuml` line inside a fence is never
treated as a diagram begin marker. -/
theorem plantuml_roundtrip_amended :
    (∀ x : Str, goodPlantuml x = true →
      postprocessPlantuml (preprocessPlantuml x) = x) ∧
    (∀ (l : Str) (rest : List Str),
      preGo (l :: rest) (.normal true)
        = l :: preGo rest
            (.normal (if isFenceClose (jsTrimStart l) then false else true))) := by
  constructor
  · intro x hx
    unfold postprocessPlantuml preprocessPlantuml
    have hlines : ∀ l ∈ splitNl x, '\n' ∉ l := mem_splitOnC_not_sep '\n' x
    have hne : splitNl x ≠ [] := splitOnC_ne_nil '\n' x
    have hpre_ne : preGo (splitNl x) (.normal false) ≠ [] :=
      (preGo_ne_nil (splitNl x)).1 false hne
    have hpre_nl : ∀ m ∈ preGo (splitNl x) (.normal false), '\n' ∉ m :=
      (preGo_no_nl (splitNl x) hlines).1 false
    have hsplit : splitNl (joinNl (preGo (splitNl x) (.normal false)))
        = preGo (splitNl x) (.normal false) :=
      splitOnC_joinC '\n' _ hpre_ne hpre_nl
    rw [hsplit, (pre_post_roundtrip_aux (splitNl x)).1 false hx, joinNl_splitNl]
  · intro l rest
    simp only [preGo]
    by_cases hf : isFenceClose (jsTrimStart l) = true
    · simp [hf]
    · simp [hf]

/-- C8 witness: the three-line diagram input satisfies the side condition,
and the amended round trip returns it byte-identically. -/
theorem plantuml_roundtrip_amended_witness :
    postprocessPlantuml (preprocessPlantuml (str "@startuml\nAlice -> Bob\n@enduml"))
      = str "@startuml\nAlice -> Bob\n@enduml" :=
  plantuml_roundtrip_amended.1 (str "@startuml\nAlice -> Bob\n@enduml") (by decide)

end Livemark
